import Mathlib

/-!
Shallow embedding of `src/core/pdf-document/PDFDocumentWriter.ts` (pdf-lib).

The writer turns a finalized object index into the bytes of a PDF file via
two entry points: `saveToBytes` (classic cross-reference table) and
`saveToBytesWithObjectStreams` (compact cross-reference stream).  Collaborator
classes (header, indirect-object framing, table/trailer encoders) live outside
the analysed source; they are represented by an environment of abstract byte
encoders, each reporting `bytesSize` as the length of the byte list its
`copyBytesInto` writes.  Machine buffers (`Uint8Array`) are modelled as lists
of naturals with cursor-based writes that silently drop out-of-range bytes,
matching typed-array semantics.
-/

/-- An indirect reference: object number and generation number. -/
structure PDFIndirectReference where
  objectNumber : Nat
  generationNumber : Nat
deriving DecidableEq

/-- A PDF object, classified exactly by the runtime type checks the writer
performs: `instanceof PDFCatalog` (a dictionary, never a stream) and
`instanceof PDFStream`.  The `data` payload distinguishes distinct objects. -/
inductive PDFObject where
  | catalog (data : Nat)
  | stream (data : Nat)
  | other (data : Nat)
deriving DecidableEq

/-- Mirrors `object instanceof PDFCatalog`. -/
def PDFObject.isCatalog : PDFObject → Bool
  | .catalog _ => true
  | _ => false

/-- Mirrors `object instanceof PDFStream`. -/
def PDFObject.isStream : PDFObject → Bool
  | .stream _ => true
  | _ => false

/-- Mirrors `PDFIndirectObject.of(object).setReference(ref)`: an object value
bound to one indirect reference. -/
structure PDFIndirectObject where
  reference : PDFIndirectReference
  pdfObject : PDFObject
deriving DecidableEq

/-- The document as the writer consumes it: `pdfDoc.index.index` is a `Map`
whose iteration order is its entry order, here a list of entries with unique
references; `pdfDoc.maxObjNum` is the running maximum object number. -/
structure PDFDocument where
  index : List (PDFIndirectReference × PDFObject)
  maxObjNum : Nat
deriving DecidableEq

/-- Modelled from the spec: the Object Index "tracks the maximum object number
currently assigned" (`PDFDocument.maxObjNum` is a collaborator not under the
analysed source).  A document is well formed when `maxObjNum` bounds every
object number of the index. -/
def PDFDocument.wf (pdfDoc : PDFDocument) : Prop :=
  ∀ e ∈ pdfDoc.index, e.1.objectNumber ≤ pdfDoc.maxObjNum

/-- The trailer dictionary built by the classic path: its `Size` and `Root`
entries. -/
structure PDFTrailerDict where
  size : Nat
  root : PDFIndirectReference
deriving DecidableEq

/-- Mirrors `PDFTrailer.from(offset, dict)`. -/
structure PDFTrailer where
  lastXRefOffset : Nat
  dictionary : PDFTrailerDict
deriving DecidableEq

/-- The collaborator byte encoders.  Every writable unit reports its byte size
as the length of the bytes it writes, which is the contract the writer
assumes.  `encodeObjStm` stands for `PDFObjectStream.create(index, objs).encode()`,
whose result is a `PDFStream`; `xrefStreamBytes` for the encoded
cross-reference stream; `trailerXBytes` for `PDFTrailerX.from(offset)`. -/
structure Env where
  headerBytes : List Nat
  unitBytes : PDFIndirectObject → List Nat
  tableBytes : List PDFIndirectObject → List Nat
  trailerBytes : PDFTrailer → List Nat
  encodeObjStm : List PDFIndirectObject → Nat
  xrefStreamBytes : List PDFIndirectObject → PDFIndirectObject → PDFIndirectReference → List Nat
  trailerXBytes : Nat → List Nat

/-- Writing `bytes` into a fixed-size buffer at cursor `pos`; bytes falling
beyond the end of the buffer are dropped, as for a typed array. -/
def writeAt (buffer : List Nat) (pos : Nat) (bytes : List Nat) : List Nat :=
  buffer.take pos ++ bytes.take (buffer.length - pos) ++ buffer.drop (pos + bytes.length)

/-- Mirrors `new Uint8Array(bufferSize)` followed by the chain of
`copyBytesInto` calls: a zero-filled buffer of the requested size receives the
sections back-to-back, the cursor advancing by each section's length.  Returns
the buffer and the final cursor. -/
def assemble (bufferSize : Nat) (sections : List (List Nat)) : List Nat × Nat :=
  sections.foldl (fun acc s => (writeAt acc.1 acc.2 s, acc.2 + s.length))
    (List.replicate bufferSize 0, 0)

/-- The comparator `({ reference: a }, { reference: b }) => a.objectNumber -
b.objectNumber` passed to `indexArr.sort`, as the ordering it induces. -/
def byObjectNumber (a b : PDFIndirectObject) : Prop :=
  a.reference.objectNumber ≤ b.reference.objectNumber

instance : DecidableRel byObjectNumber :=
  fun a b => Nat.decLe a.reference.objectNumber b.reference.objectNumber

instance : IsTotal PDFIndirectObject byObjectNumber :=
  ⟨fun a b => Nat.le_total a.reference.objectNumber b.reference.objectNumber⟩

instance : IsTrans PDFIndirectObject byObjectNumber :=
  ⟨fun _ _ _ => Nat.le_trans⟩

/-- Mirrors `PDFDocumentWriter.sortIndex`: frame every index entry as an
indirect object and sort by `a.objectNumber - b.objectNumber`.  JavaScript
`Array.prototype.sort` is a stable, comparator-consistent sort; it is modelled
by the stable `insertionSort` under the comparator's ordering. -/
def sortIndex (index : List (PDFIndirectReference × PDFObject)) : List PDFIndirectObject :=
  let indexArr := index.map (fun e => PDFIndirectObject.mk e.1 e.2)
  indexArr.insertionSort byObjectNumber

/-- Modelled from the spec: `PDFXRefTableFactory.forIndirectObjects` is not
under the analysed source.  Per §4.2 it returns the classic table together
with `tableOffset` equal to the header's byte length plus the sum of the byte
lengths of every object in `sortedIndex`; the table's own bytes come from the
collaborator encoder. -/
def PDFXRefTableFactory.forIndirectObjects (env : Env) (sortedIndex : List PDFIndirectObject) :
    List Nat × Nat :=
  (env.tableBytes sortedIndex,
   env.headerBytes.length + (sortedIndex.map (fun u => (env.unitBytes u).length)).sum)

/-- Modelled from the spec: `PDFXRefStreamFactory.forIndirectObjects` is not
under the analysed source.  Per §4.3 it returns `[offset, xrefStream]` where
`offset` is the header's byte length plus the sum of the stream objects' byte
lengths, and the stream's bytes come from the collaborator encoder. -/
def PDFXRefStreamFactory.forIndirectObjects (env : Env) (streamObjects : List PDFIndirectObject)
    (objectStreamIndObj : PDFIndirectObject) (pdfCatalogRef : PDFIndirectReference) :
    Nat × List Nat :=
  (env.headerBytes.length + (streamObjects.map (fun u => (env.unitBytes u).length)).sum,
   env.xrefStreamBytes streamObjects objectStreamIndObj pdfCatalogRef)

/-- The intermediate values of `saveToBytes` up to trailer construction. -/
structure ClassicPlan where
  sortedIndex : List PDFIndirectObject
  catalogRef : PDFIndirectReference
  table : List Nat
  tableOffset : Nat
  trailer : PDFTrailer
deriving DecidableEq

/-- The classic path of `PDFDocumentWriter.saveToBytes` up to the allocation
of the buffer: sort the index, find the first catalog (`error('Missing
PDFCatalog')` when none), build the table and the trailer with
`Size = sortedIndex.length + 1` and `Root = catalogRef`. -/
def classicPlan (env : Env) (pdfDoc : PDFDocument) : Except String ClassicPlan :=
  let sortedIndex := sortIndex pdfDoc.index
  match sortedIndex.find? (fun u => u.pdfObject.isCatalog) with
  | none => .error "Missing PDFCatalog"
  | some catUnit =>
    let p := PDFXRefTableFactory.forIndirectObjects env sortedIndex
    .ok ⟨sortedIndex, catUnit.reference, p.1, p.2,
      ⟨p.2, ⟨sortedIndex.length + 1, catUnit.reference⟩⟩⟩

/-- The sections the classic path writes, in file order: header, each sorted
body unit, the cross-reference table, the trailer. -/
def classicSectionsBytes (env : Env) (p : ClassicPlan) : List (List Nat) :=
  env.headerBytes :: p.sortedIndex.map env.unitBytes ++ [p.table, env.trailerBytes p.trailer]

/-- `PDFDocumentWriter.saveToBytes`: allocate
`bufferSize = tableOffset + table.bytesSize() + trailer.bytesSize()` and copy
header, body units, table and trailer back-to-back. -/
def saveToBytes (env : Env) (pdfDoc : PDFDocument) : Except String (List Nat) :=
  (classicPlan env pdfDoc).map fun p =>
    let bufferSize := p.tableOffset + p.table.length + (env.trailerBytes p.trailer).length
    (assemble bufferSize (classicSectionsBytes env p)).1

/-- One step of the `pdfDoc.index.index.forEach` partition loop of
`saveToBytesWithObjectStreams`: record the reference when the object is a
catalog (later entries overwrite earlier ones), and push the framed unit onto
the stream or the non-stream sequence. -/
def partitionStep
    (acc : List PDFIndirectObject × List PDFIndirectObject × Option PDFIndirectReference)
    (e : PDFIndirectReference × PDFObject) :
    List PDFIndirectObject × List PDFIndirectObject × Option PDFIndirectReference :=
  let catRef := if e.2.isCatalog then some e.1 else acc.2.2
  if e.2.isStream then (acc.1 ++ [⟨e.1, e.2⟩], acc.2.1, catRef)
  else (acc.1, acc.2.1 ++ [⟨e.1, e.2⟩], catRef)

/-- The whole partition loop over the index, in iteration order. -/
def partitionIndex (index : List (PDFIndirectReference × PDFObject)) :
    List PDFIndirectObject × List PDFIndirectObject × Option PDFIndirectReference :=
  index.foldl partitionStep ([], [], none)

/-- The intermediate values of `saveToBytesWithObjectStreams` up to trailer
construction. -/
structure CompactPlan where
  streamObjectsPre : List PDFIndirectObject
  nonStreamObjects : List PDFIndirectObject
  pdfCatalogRef : PDFIndirectReference
  objectStreamIndObj : PDFIndirectObject
  streamObjects : List PDFIndirectObject
  offset : Nat
  xrefStream : List Nat
  trailer : List Nat
deriving DecidableEq

/-- The compact path of `saveToBytesWithObjectStreams` up to the allocation of
the buffer: partition the index, fail when no catalog was seen, aggregate the
non-stream objects into one object stream referenced `(maxObjNum + 1, 0)`,
push it onto the stream-objects sequence, then build cross-reference stream
and pointer trailer. -/
def compactPlan (env : Env) (pdfDoc : PDFDocument) : Except String CompactPlan :=
  let parts := partitionIndex pdfDoc.index
  match parts.2.2 with
  | none => .error "Missing PDFCatalog"
  | some pdfCatalogRef =>
    let objectStream := PDFObject.stream (env.encodeObjStm parts.2.1)
    let objectStreamRef : PDFIndirectReference := ⟨pdfDoc.maxObjNum + 1, 0⟩
    let objectStreamIndObj : PDFIndirectObject := ⟨objectStreamRef, objectStream⟩
    let streamObjects := parts.1 ++ [objectStreamIndObj]
    let q := PDFXRefStreamFactory.forIndirectObjects env streamObjects objectStreamIndObj
      pdfCatalogRef
    .ok ⟨parts.1, parts.2.1, pdfCatalogRef, objectStreamIndObj, streamObjects,
      q.1, q.2, env.trailerXBytes q.1⟩

/-- A tag for each write the compact path performs against the buffer. -/
inductive FileSection where
  | header
  | unit (u : PDFIndirectObject)
  | xref
  | pointer
deriving DecidableEq

/-- The write sequence of the compact path, in file order: header, the
stream-objects sequence (aggregate last), the cross-reference stream, the
pointer trailer.  The commented-out `streamObjects.push(xrefStream)` of the
source never runs, so the cross-reference stream is not a body unit. -/
def compactSections (p : CompactPlan) : List FileSection :=
  FileSection.header :: p.streamObjects.map FileSection.unit ++
    [FileSection.xref, FileSection.pointer]

/-- The bytes each tagged section writes. -/
def sectionBytes (env : Env) (p : CompactPlan) : FileSection → List Nat
  | .header => env.headerBytes
  | .unit u => env.unitBytes u
  | .xref => p.xrefStream
  | .pointer => p.trailer

/-- `PDFDocumentWriter.saveToBytesWithObjectStreams`: allocate
`bufferSize = offset + xrefStream.bytesSize() + trailer.bytesSize()` and copy
the sections back-to-back. -/
def saveToBytesWithObjectStreams (env : Env) (pdfDoc : PDFDocument) :
    Except String (List Nat) :=
  (compactPlan env pdfDoc).map fun p =>
    let bufferSize := p.offset + p.xrefStream.length + p.trailer.length
    (assemble bufferSize ((compactSections p).map (sectionBytes env p))).1

/-- The framed units of the stream entries of an index, in iteration order. -/
def streamUnits (index : List (PDFIndirectReference × PDFObject)) : List PDFIndirectObject :=
  (index.filter (fun e => e.2.isStream)).map (fun e => ⟨e.1, e.2⟩)

/-- The framed units of the non-stream entries of an index, in iteration
order. -/
def nonStreamUnits (index : List (PDFIndirectReference × PDFObject)) : List PDFIndirectObject :=
  (index.filter (fun e => !e.2.isStream)).map (fun e => ⟨e.1, e.2⟩)

/-- The reference of the catalog entry encountered last in iteration order. -/
def lastCatalogRef (index : List (PDFIndirectReference × PDFObject)) :
    Option PDFIndirectReference :=
  ((index.filter (fun e => e.2.isCatalog)).getLast?).map Prod.fst

theorem sortIndex_perm (index : List (PDFIndirectReference × PDFObject)) :
    (sortIndex index).Perm (index.map (fun e => PDFIndirectObject.mk e.1 e.2)) :=
  List.perm_insertionSort _ _

theorem sortIndex_sorted (index : List (PDFIndirectReference × PDFObject)) :
    (sortIndex index).Pairwise byObjectNumber :=
  List.sorted_insertionSort byObjectNumber _

theorem sortIndex_length (index : List (PDFIndirectReference × PDFObject)) :
    (sortIndex index).length = index.length := by
  have h := (sortIndex_perm index).length_eq
  simpa using h

theorem find?_first_min {α : Type} (key : α → Nat) (p : α → Bool) :
    ∀ (l : List α), l.Pairwise (fun a b => key a ≤ key b) →
      ∀ u, l.find? p = some u → ∀ v ∈ l, p v = true → key u ≤ key v
  | [], _, u, hfind => by simp at hfind
  | x :: xs, hpw, u, hfind => by
    intro v hv hpv
    by_cases hx : p x = true
    · rw [List.find?_cons_of_pos _ hx] at hfind
      cases hfind
      rcases List.mem_cons.mp hv with hvx | hvxs
      · subst hvx
        exact Nat.le_refl _
      · exact (List.pairwise_cons.mp hpw).1 v hvxs
    · rw [List.find?_cons_of_neg _ hx] at hfind
      rcases List.mem_cons.mp hv with hvx | hvxs
      · subst hvx
        exact absurd hpv hx
      · exact find?_first_min key p xs (List.pairwise_cons.mp hpw).2 u hfind v hvxs hpv

theorem lastCatalogRef_cons (e : PDFIndirectReference × PDFObject)
    (rest : List (PDFIndirectReference × PDFObject)) :
    lastCatalogRef (e :: rest) =
      (lastCatalogRef rest).or (if e.2.isCatalog then some e.1 else none) := by
  unfold lastCatalogRef
  by_cases h : e.2.isCatalog = true
  · rw [List.filter_cons]
    simp only [h, if_true, List.getLast?_cons]
    cases hl : (rest.filter (fun e => e.2.isCatalog)).getLast? <;> simp [hl]
  · rw [List.filter_cons]
    simp only [h, if_false, Bool.false_eq_true, if_neg]
    simp [h, Option.or_none]

theorem partitionIndex_go :
    ∀ (index : List (PDFIndirectReference × PDFObject))
      (s n : List PDFIndirectObject) (c : Option PDFIndirectReference),
      index.foldl partitionStep (s, n, c) =
        (s ++ streamUnits index, n ++ nonStreamUnits index, (lastCatalogRef index).or c)
  | [], s, n, c => by
    simp [streamUnits, nonStreamUnits, lastCatalogRef, Option.or_none]
  | e :: rest, s, n, c => by
    rw [List.foldl_cons, lastCatalogRef_cons]
    have hstep : partitionStep (s, n, c) e =
        (s ++ (if e.2.isStream then [⟨e.1, e.2⟩] else []),
         n ++ (if e.2.isStream then [] else [⟨e.1, e.2⟩]),
         if e.2.isCatalog then some e.1 else c) := by
      unfold partitionStep
      by_cases hs : e.2.isStream = true <;> simp [hs]
    rw [hstep, partitionIndex_go rest]
    have h1 : streamUnits (e :: rest) =
        (if e.2.isStream then [(⟨e.1, e.2⟩ : PDFIndirectObject)] else []) ++ streamUnits rest := by
      unfold streamUnits
      rw [List.filter_cons]
      by_cases hs : e.2.isStream = true <;> simp [hs]
    have h2 : nonStreamUnits (e :: rest) =
        (if e.2.isStream then [] else [(⟨e.1, e.2⟩ : PDFIndirectObject)]) ++ nonStreamUnits rest := by
      unfold nonStreamUnits
      rw [List.filter_cons]
      by_cases hs : e.2.isStream = true <;> simp [hs]
    rw [h1, h2]
    refine congrArg₂ _ ?_ (congrArg₂ _ ?_ ?_)
    · rw [List.append_assoc]
    · rw [List.append_assoc]
    · cases hr : lastCatalogRef rest <;> by_cases hc : e.2.isCatalog = true <;>
        simp [hr, hc, Option.or]

theorem partitionIndex_eq (index : List (PDFIndirectReference × PDFObject)) :
    partitionIndex index = (streamUnits index, nonStreamUnits index, lastCatalogRef index) := by
  have h := partitionIndex_go index [] [] none
  simpa [partitionIndex, Option.or_none] using h

theorem writeAt_exact (A Z bytes : List Nat) (h : bytes.length ≤ Z.length) :
    writeAt (A ++ Z) A.length bytes = A ++ bytes ++ Z.drop bytes.length := by
  unfold writeAt
  rw [List.take_left, List.length_append]
  have h1 : A.length + Z.length - A.length = Z.length := by omega
  rw [h1, List.take_of_length_le h, List.drop_append]

theorem assemble_go :
    ∀ (sections : List (List Nat)) (A Z : List Nat),
      (sections.map List.length).sum = Z.length →
      sections.foldl (fun acc s => (writeAt acc.1 acc.2 s, acc.2 + s.length)) (A ++ Z, A.length)
        = (A ++ sections.flatten, A.length + Z.length)
  | [], A, Z, h => by
    simp only [List.map_nil, List.sum_nil] at h
    have hz : Z = [] := List.eq_nil_of_length_eq_zero h.symm
    subst hz
    simp
  | s :: rest, A, Z, h => by
    simp only [List.map_cons, List.sum_cons] at h
    have hs : s.length ≤ Z.length := by omega
    rw [List.foldl_cons]
    show rest.foldl _ (writeAt (A ++ Z) A.length s, A.length + s.length) = _
    rw [writeAt_exact A Z s hs]
    have hlen : A.length + s.length = (A ++ s).length := by
      rw [List.length_append]
    have hA : A ++ s ++ Z.drop s.length = (A ++ s) ++ Z.drop s.length := rfl
    rw [hA, hlen]
    have hsum : (rest.map List.length).sum = (Z.drop s.length).length := by
      rw [List.length_drop]
      omega
    rw [assemble_go rest (A ++ s) (Z.drop s.length) hsum]
    refine congrArg₂ _ ?_ ?_
    · simp [List.append_assoc]
    · rw [List.length_drop, List.length_append]
      omega

theorem assemble_eq (bufferSize : Nat) (sections : List (List Nat))
    (h : (sections.map List.length).sum = bufferSize) :
    assemble bufferSize sections = (sections.flatten, bufferSize) := by
  have hgo := assemble_go sections [] (List.replicate bufferSize 0) (by simpa using h)
  simpa [assemble] using hgo

/-- Reading `pdfDoc.index.index`, with the document state threaded through. -/
def readIndex (pdfDoc : PDFDocument) :
    List (PDFIndirectReference × PDFObject) × PDFDocument :=
  (pdfDoc.index, pdfDoc)

/-- Reading `pdfDoc.maxObjNum`, with the document state threaded through. -/
def readMaxObjNum (pdfDoc : PDFDocument) : Nat × PDFDocument :=
  (pdfDoc.maxObjNum, pdfDoc)

/-- `saveToBytes` with the document threaded through every access the source
makes to it; no step of the path writes to the index, so every step passes the
document along unchanged. -/
def saveToBytesTracked (env : Env) (pdfDoc : PDFDocument) :
    Except String (List Nat) × PDFDocument :=
  let r1 := readIndex pdfDoc
  let sortedIndex := sortIndex r1.1
  match sortedIndex.find? (fun u => u.pdfObject.isCatalog) with
  | none => (.error "Missing PDFCatalog", r1.2)
  | some catUnit =>
    let p := PDFXRefTableFactory.forIndirectObjects env sortedIndex
    let trailer : PDFTrailer := ⟨p.2, ⟨sortedIndex.length + 1, catUnit.reference⟩⟩
    let bufferSize := p.2 + p.1.length + (env.trailerBytes trailer).length
    (.ok (assemble bufferSize
        (env.headerBytes :: sortedIndex.map env.unitBytes ++
          [p.1, env.trailerBytes trailer])).1,
     r1.2)

/-- `saveToBytesWithObjectStreams` with the document threaded through every
access the source makes to it; the synthesized object stream unit is pushed
onto the local `streamObjects` array, never into the index. -/
def saveToBytesWithObjectStreamsTracked (env : Env) (pdfDoc : PDFDocument) :
    Except String (List Nat) × PDFDocument :=
  let r1 := readIndex pdfDoc
  let parts := partitionIndex r1.1
  match parts.2.2 with
  | none => (.error "Missing PDFCatalog", r1.2)
  | some pdfCatalogRef =>
    let r2 := readMaxObjNum r1.2
    let objectStream := PDFObject.stream (env.encodeObjStm parts.2.1)
    let objectStreamRef : PDFIndirectReference := ⟨r2.1 + 1, 0⟩
    let objectStreamIndObj : PDFIndirectObject := ⟨objectStreamRef, objectStream⟩
    let streamObjects := parts.1 ++ [objectStreamIndObj]
    let q := PDFXRefStreamFactory.forIndirectObjects env streamObjects objectStreamIndObj
      pdfCatalogRef
    let trailer := env.trailerXBytes q.1
    let bufferSize := q.1 + q.2.length + trailer.length
    (.ok (assemble bufferSize
        (env.headerBytes :: streamObjects.map env.unitBytes ++ [q.2, trailer])).1,
     r2.2)

/-- A concrete collaborator environment, used to evaluate the theorems on
concrete documents. -/
def env0 : Env where
  headerBytes := [37, 80]
  unitBytes := fun u => List.replicate (u.reference.objectNumber + 1) 7
  tableBytes := fun us => List.replicate (us.length + 2) 4
  trailerBytes := fun t => [t.lastXRefOffset % 256, t.dictionary.size % 256]
  encodeObjStm := fun us => us.length
  xrefStreamBytes := fun us o c =>
    [us.length % 256, o.reference.objectNumber % 256, c.objectNumber % 256]
  trailerXBytes := fun n => [n % 256, 10]

/-- The scenario of spec §8: objects {1: Catalog, 2: Dictionary, 3: Stream},
`maxObjectNumber = 3`. -/
def doc3 : PDFDocument where
  index := [(⟨1, 0⟩, PDFObject.catalog 0), (⟨2, 0⟩, PDFObject.other 0),
    (⟨3, 0⟩, PDFObject.stream 5)]
  maxObjNum := 3

/-- A document whose index holds no catalog. -/
def docNoCat : PDFDocument where
  index := [(⟨1, 0⟩, PDFObject.other 0), (⟨2, 0⟩, PDFObject.stream 1)]
  maxObjNum := 2

/-- A document with two catalogs, on which the two write paths pick different
root references. -/
def docTwoCats : PDFDocument where
  index := [(⟨1, 0⟩, PDFObject.catalog 0), (⟨2, 0⟩, PDFObject.catalog 1)]
  maxObjNum := 2

theorem sortIndex_no_catalog (index : List (PDFIndirectReference × PDFObject))
    (h : ∀ e ∈ index, e.2.isCatalog = false) :
    (sortIndex index).find? (fun u => u.pdfObject.isCatalog) = none := by
  rw [List.find?_eq_none]
  intro u hu
  have hmem : u ∈ index.map (fun e => PDFIndirectObject.mk e.1 e.2) :=
    (sortIndex_perm index).mem_iff.mp hu
  rcases List.mem_map.mp hmem with ⟨e, he, heq⟩
  subst heq
  simp [h e he]

/-- The classic plan the writer builds once the catalog unit `catUnit` has
been found in the sorted sequence. -/
def classicPlanOf (env : Env) (pdfDoc : PDFDocument) (catUnit : PDFIndirectObject) :
    ClassicPlan :=
  let sortedIndex := sortIndex pdfDoc.index
  let p := PDFXRefTableFactory.forIndirectObjects env sortedIndex
  ⟨sortedIndex, catUnit.reference, p.1, p.2,
    ⟨p.2, ⟨sortedIndex.length + 1, catUnit.reference⟩⟩⟩

theorem classicPlan_ok_iff (env : Env) (pdfDoc : PDFDocument) (p : ClassicPlan) :
    classicPlan env pdfDoc = .ok p ↔
      ∃ catUnit, (sortIndex pdfDoc.index).find? (fun u => u.pdfObject.isCatalog)
          = some catUnit ∧ p = classicPlanOf env pdfDoc catUnit := by
  unfold classicPlan classicPlanOf
  cases hfind : (sortIndex pdfDoc.index).find? (fun u => u.pdfObject.isCatalog) with
  | none => simp [hfind]
  | some catUnit => simp [hfind, eq_comm]

/-- The compact plan the writer builds once the partition scan has recorded
the catalog reference `catRef`. -/
def compactPlanOf (env : Env) (pdfDoc : PDFDocument) (catRef : PDFIndirectReference) :
    CompactPlan :=
  let objectStreamIndObj : PDFIndirectObject :=
    ⟨⟨pdfDoc.maxObjNum + 1, 0⟩,
     PDFObject.stream (env.encodeObjStm (nonStreamUnits pdfDoc.index))⟩
  let streamObjects := streamUnits pdfDoc.index ++ [objectStreamIndObj]
  let q := PDFXRefStreamFactory.forIndirectObjects env streamObjects objectStreamIndObj catRef
  ⟨streamUnits pdfDoc.index, nonStreamUnits pdfDoc.index, catRef, objectStreamIndObj,
    streamObjects, q.1, q.2, env.trailerXBytes q.1⟩

theorem compactPlan_ok_iff (env : Env) (pdfDoc : PDFDocument) (p : CompactPlan) :
    compactPlan env pdfDoc = .ok p ↔
      ∃ catRef, lastCatalogRef pdfDoc.index = some catRef ∧
        p = compactPlanOf env pdfDoc catRef := by
  unfold compactPlan compactPlanOf
  rw [partitionIndex_eq]
  cases hcat : lastCatalogRef pdfDoc.index with
  | none => simp
  | some catRef => simp [eq_comm]

/-- C1: an index with zero Catalog objects makes both entry points fail with
the missing-root error: each path performs its catalog check before the output
buffer is allocated and returns the error, so no buffer is produced. -/
theorem c1_missing_root (env : Env) (pdfDoc : PDFDocument)
    (h : ∀ e ∈ pdfDoc.index, e.2.isCatalog = false) :
    saveToBytes env pdfDoc = .error "Missing PDFCatalog" ∧
      saveToBytesWithObjectStreams env pdfDoc = .error "Missing PDFCatalog" := by
  constructor
  · have hfind := sortIndex_no_catalog pdfDoc.index h
    simp [saveToBytes, classicPlan, hfind, Except.map]
  · have hcat : lastCatalogRef pdfDoc.index = none := by
      unfold lastCatalogRef
      rw [List.filter_eq_nil_iff.mpr (fun e he => by simp [h e he])]
      rfl
    simp [saveToBytesWithObjectStreams, compactPlan, partitionIndex_eq, hcat, Except.map]

/-- Witness for C1 on a concrete catalog-free document. -/
theorem c1_missing_root_witness :
    saveToBytes env0 docNoCat = .error "Missing PDFCatalog" ∧
      saveToBytesWithObjectStreams env0 docNoCat = .error "Missing PDFCatalog" :=
  c1_missing_root env0 docNoCat (by decide)

/-- C3: `sortIndex` returns exactly one indirect-object unit per index entry,
each unit carrying its original reference and object (the result is a
permutation of the framed entries), sorted ascending by object number; the
function builds a fresh array, so the input index is left unmodified (it is
consumed as an immutable value). -/
theorem c3_sortIndex_spec (index : List (PDFIndirectReference × PDFObject)) :
    (sortIndex index).Perm (index.map (fun e => PDFIndirectObject.mk e.1 e.2)) ∧
      (sortIndex index).Pairwise
        (fun a b => a.reference.objectNumber ≤ b.reference.objectNumber) :=
  ⟨sortIndex_perm index, sortIndex_sorted index⟩

/-- C2: when the index holds a Catalog, the classic path builds a trailer
dictionary whose `Size` is the number of indirect objects in the index plus
one, and whose `Root` is the reference of the Catalog unit found in the
sorted sequence. -/
theorem c2_classic_trailer (env : Env) (pdfDoc : PDFDocument)
    (h : ∃ e ∈ pdfDoc.index, e.2.isCatalog = true) :
    ∃ p catUnit, classicPlan env pdfDoc = .ok p ∧
      (sortIndex pdfDoc.index).find? (fun u => u.pdfObject.isCatalog) = some catUnit ∧
      catUnit.pdfObject.isCatalog = true ∧
      p.trailer.dictionary.size = pdfDoc.index.length + 1 ∧
      p.trailer.dictionary.root = catUnit.reference := by
  rcases h with ⟨e, he, hcat⟩
  have hmem : (PDFIndirectObject.mk e.1 e.2) ∈ sortIndex pdfDoc.index :=
    (sortIndex_perm pdfDoc.index).mem_iff.mpr (List.mem_map.mpr ⟨e, he, rfl⟩)
  have hsome : ((sortIndex pdfDoc.index).find? (fun u => u.pdfObject.isCatalog)).isSome :=
    List.find?_isSome.mpr ⟨_, hmem, by simpa using hcat⟩
  rcases Option.isSome_iff_exists.mp hsome with ⟨catUnit, hfind⟩
  refine ⟨classicPlanOf env pdfDoc catUnit, catUnit, ?_, hfind, ?_, ?_, rfl⟩
  · exact (classicPlan_ok_iff env pdfDoc _).mpr ⟨catUnit, hfind, rfl⟩
  · simpa using List.find?_some hfind
  · show (sortIndex pdfDoc.index).length + 1 = pdfDoc.index.length + 1
    rw [sortIndex_length]

/-- Witness for C2 on the concrete scenario document. -/
theorem c2_classic_trailer_witness :
    ∃ p catUnit, classicPlan env0 doc3 = .ok p ∧
      (sortIndex doc3.index).find? (fun u => u.pdfObject.isCatalog) = some catUnit ∧
      catUnit.pdfObject.isCatalog = true ∧
      p.trailer.dictionary.size = doc3.index.length + 1 ∧
      p.trailer.dictionary.root = catUnit.reference :=
  c2_classic_trailer env0 doc3 ⟨(⟨1, 0⟩, PDFObject.catalog 0), by decide, rfl⟩

/-- C10: with more than one catalog in the index neither entry point raises an
error; the classic path records as root the reference of the catalog found
first in the sorted sequence, whose object number is minimal among all
catalogs of the index; the compact path records the reference of the catalog
encountered last in the index's iteration order; and on a concrete document
the two paths record different roots. -/
theorem c10_multiple_catalogs (env : Env) (pdfDoc : PDFDocument)
    (h : 1 < (pdfDoc.index.filter (fun e => e.2.isCatalog)).length) :
    (∃ p catUnit, classicPlan env pdfDoc = .ok p ∧
        (sortIndex pdfDoc.index).find? (fun u => u.pdfObject.isCatalog) = some catUnit ∧
        p.catalogRef = catUnit.reference ∧
        ∀ e ∈ pdfDoc.index, e.2.isCatalog = true →
          catUnit.reference.objectNumber ≤ e.1.objectNumber) ∧
    (∃ q, compactPlan env pdfDoc = .ok q ∧
        some q.pdfCatalogRef
          = ((pdfDoc.index.filter (fun e => e.2.isCatalog)).getLast?).map Prod.fst) ∧
    (∃ p q, classicPlan env0 docTwoCats = .ok p ∧ compactPlan env0 docTwoCats = .ok q ∧
        p.catalogRef ≠ q.pdfCatalogRef) := by
  have hpos : pdfDoc.index.filter (fun e => e.2.isCatalog) ≠ [] := by
    intro hnil
    rw [hnil] at h
    simp at h
  refine ⟨?_, ?_, ?_⟩
  · obtain ⟨e, he⟩ := List.exists_mem_of_ne_nil _ hpos
    have heIdx : e ∈ pdfDoc.index := (List.mem_filter.mp he).1
    have heCat : e.2.isCatalog = true := by simpa using (List.mem_filter.mp he).2
    have hmem : (PDFIndirectObject.mk e.1 e.2) ∈ sortIndex pdfDoc.index :=
      (sortIndex_perm pdfDoc.index).mem_iff.mpr (List.mem_map.mpr ⟨e, heIdx, rfl⟩)
    have hsome : ((sortIndex pdfDoc.index).find? (fun u => u.pdfObject.isCatalog)).isSome :=
      List.find?_isSome.mpr ⟨_, hmem, by simpa using heCat⟩
    rcases Option.isSome_iff_exists.mp hsome with ⟨catUnit, hfind⟩
    refine ⟨classicPlanOf env pdfDoc catUnit, catUnit,
      (classicPlan_ok_iff env pdfDoc _).mpr ⟨catUnit, hfind, rfl⟩, hfind, rfl, ?_⟩
    intro e2 he2 hcat2
    have hmem2 : (PDFIndirectObject.mk e2.1 e2.2) ∈ sortIndex pdfDoc.index :=
      (sortIndex_perm pdfDoc.index).mem_iff.mpr (List.mem_map.mpr ⟨e2, he2, rfl⟩)
    have hsorted : (sortIndex pdfDoc.index).Pairwise
        (fun a b : PDFIndirectObject =>
          a.reference.objectNumber ≤ b.reference.objectNumber) :=
      (sortIndex_sorted pdfDoc.index).imp (fun hab => hab)
    exact find?_first_min (fun u => u.reference.objectNumber)
      (fun u => u.pdfObject.isCatalog) (sortIndex pdfDoc.index)
      hsorted catUnit hfind _ hmem2 (by simpa using hcat2)
  · have hlastSome : ((pdfDoc.index.filter (fun e => e.2.isCatalog)).getLast?).isSome := by
      rw [List.getLast?_isSome]
      exact hpos
    rcases Option.isSome_iff_exists.mp hlastSome with ⟨catE, hgl⟩
    have hlcr : lastCatalogRef pdfDoc.index = some catE.1 := by
      unfold lastCatalogRef
      rw [hgl]
      rfl
    exact ⟨compactPlanOf env pdfDoc catE.1,
      (compactPlan_ok_iff env pdfDoc _).mpr ⟨catE.1, hlcr, rfl⟩,
      by rw [hgl]; rfl⟩
  · refine ⟨classicPlanOf env0 docTwoCats ⟨⟨1, 0⟩, PDFObject.catalog 0⟩,
      compactPlanOf env0 docTwoCats ⟨2, 0⟩, ?_, ?_, by decide⟩
    · exact (classicPlan_ok_iff env0 docTwoCats _).mpr ⟨⟨⟨1, 0⟩, PDFObject.catalog 0⟩,
        by decide, rfl⟩
    · exact (compactPlan_ok_iff env0 docTwoCats _).mpr ⟨⟨2, 0⟩, by decide, rfl⟩

/-- Witness for C10 on the concrete two-catalog document. -/
theorem c10_multiple_catalogs_witness :
    (∃ p catUnit, classicPlan env0 docTwoCats = .ok p ∧
        (sortIndex docTwoCats.index).find? (fun u => u.pdfObject.isCatalog) = some catUnit ∧
        p.catalogRef = catUnit.reference ∧
        ∀ e ∈ docTwoCats.index, e.2.isCatalog = true →
          catUnit.reference.objectNumber ≤ e.1.objectNumber) ∧
    (∃ q, compactPlan env0 docTwoCats = .ok q ∧
        some q.pdfCatalogRef
          = ((docTwoCats.index.filter (fun e => e.2.isCatalog)).getLast?).map Prod.fst) ∧
    (∃ p q, classicPlan env0 docTwoCats = .ok p ∧ compactPlan env0 docTwoCats = .ok q ∧
        p.catalogRef ≠ q.pdfCatalogRef) :=
  c10_multiple_catalogs env0 docTwoCats (by decide)

/-- C5: the compact path assigns the synthesized object stream the reference
`(maxObjNum + 1, 0)`; with the index invariant that `maxObjNum` bounds every
assigned object number, that object number strictly exceeds every pre-existing
object number in the index, and the synthesized unit is appended as the last
element of the stream-objects sequence. -/
theorem c5_object_stream_ref (env : Env) (pdfDoc : PDFDocument) (p : CompactPlan)
    (hwf : pdfDoc.wf) (hp : compactPlan env pdfDoc = .ok p) :
    p.objectStreamIndObj.reference = ⟨pdfDoc.maxObjNum + 1, 0⟩ ∧
      (∀ e ∈ pdfDoc.index,
        e.1.objectNumber < p.objectStreamIndObj.reference.objectNumber) ∧
      p.streamObjects = p.streamObjectsPre ++ [p.objectStreamIndObj] ∧
      p.streamObjects.getLast? = some p.objectStreamIndObj := by
  rcases (compactPlan_ok_iff env pdfDoc p).mp hp with ⟨catRef, hcat, rfl⟩
  refine ⟨rfl, ?_, rfl, ?_⟩
  · intro e he
    have hb := hwf e he
    show e.1.objectNumber < pdfDoc.maxObjNum + 1
    omega
  · show (streamUnits pdfDoc.index ++
        [(compactPlanOf env pdfDoc catRef).objectStreamIndObj]).getLast? = _
    rw [List.getLast?_concat]

/-- Witness for C5 on the concrete scenario document. -/
theorem c5_object_stream_ref_witness :
    (compactPlanOf env0 doc3 ⟨1, 0⟩).objectStreamIndObj.reference
        = ⟨doc3.maxObjNum + 1, 0⟩ ∧
      (∀ e ∈ doc3.index, e.1.objectNumber
        < (compactPlanOf env0 doc3 ⟨1, 0⟩).objectStreamIndObj.reference.objectNumber) ∧
      (compactPlanOf env0 doc3 ⟨1, 0⟩).streamObjects
        = (compactPlanOf env0 doc3 ⟨1, 0⟩).streamObjectsPre
            ++ [(compactPlanOf env0 doc3 ⟨1, 0⟩).objectStreamIndObj] ∧
      (compactPlanOf env0 doc3 ⟨1, 0⟩).streamObjects.getLast?
        = some (compactPlanOf env0 doc3 ⟨1, 0⟩).objectStreamIndObj :=
  c5_object_stream_ref env0 doc3 (compactPlanOf env0 doc3 ⟨1, 0⟩)
    (by show ∀ e ∈ doc3.index, e.1.objectNumber ≤ doc3.maxObjNum; decide)
    ((compactPlan_ok_iff env0 doc3 _).mpr ⟨⟨1, 0⟩, by decide, rfl⟩)

/-- C6: the partition scan places every index entry into exactly one of the
two sequences — stream objects into the stream sequence, all others into the
non-stream sequence — the two sequences together covering the full index (a
permutation of its framed entries); after appending the synthesized aggregate
the stream-objects sequence has (number of stream entries) + 1 elements. -/
theorem c6_partition (env : Env) (pdfDoc : PDFDocument) :
    (partitionIndex pdfDoc.index).1 = streamUnits pdfDoc.index ∧
    (partitionIndex pdfDoc.index).2.1 = nonStreamUnits pdfDoc.index ∧
    (streamUnits pdfDoc.index ++ nonStreamUnits pdfDoc.index).Perm
      (pdfDoc.index.map (fun e => PDFIndirectObject.mk e.1 e.2)) ∧
    (streamUnits pdfDoc.index).length + (nonStreamUnits pdfDoc.index).length
      = pdfDoc.index.length ∧
    (∀ p, compactPlan env pdfDoc = .ok p →
      p.streamObjects.length
          = (pdfDoc.index.filter (fun e => e.2.isStream)).length + 1 ∧
        p.streamObjectsPre.length + p.nonStreamObjects.length = pdfDoc.index.length) := by
  have hperm : (streamUnits pdfDoc.index ++ nonStreamUnits pdfDoc.index).Perm
      (pdfDoc.index.map (fun e => PDFIndirectObject.mk e.1 e.2)) := by
    unfold streamUnits nonStreamUnits
    rw [← List.map_append]
    exact (List.filter_append_perm _ pdfDoc.index).map _
  have hlen : (streamUnits pdfDoc.index).length + (nonStreamUnits pdfDoc.index).length
      = pdfDoc.index.length := by
    have h := hperm.length_eq
    simp only [List.length_append, List.length_map] at h
    simpa using h
  refine ⟨by rw [partitionIndex_eq], by rw [partitionIndex_eq], hperm, hlen, ?_⟩
  intro p hp
  rcases (compactPlan_ok_iff env pdfDoc p).mp hp with ⟨catRef, hcat, rfl⟩
  constructor
  · show (streamUnits pdfDoc.index ++ [_]).length = _
    simp [streamUnits]
  · exact hlen

/-- C7: the compact path writes exactly this file order: header first, then
each element of the stream-objects sequence in order with the aggregated
object stream last among them, then the cross-reference stream, then the
pointer trailer; the cross-reference stream is written exactly once and is
not an element of the stream-objects sequence (the source's
`streamObjects.push(xrefStream)` is commented out). -/
theorem c7_compact_order (env : Env) (pdfDoc : PDFDocument) (p : CompactPlan)
    (hp : compactPlan env pdfDoc = .ok p) :
    compactSections p
        = FileSection.header :: p.streamObjects.map FileSection.unit
            ++ [FileSection.xref, FileSection.pointer] ∧
      p.streamObjects.getLast? = some p.objectStreamIndObj ∧
      (compactSections p).count FileSection.xref = 1 ∧
      FileSection.xref ∉ p.streamObjects.map FileSection.unit ∧
      saveToBytesWithObjectStreams env pdfDoc
        = .ok (assemble (p.offset + p.xrefStream.length + p.trailer.length)
            ((compactSections p).map (sectionBytes env p))).1 := by
  have hnotmem : FileSection.xref ∉ p.streamObjects.map FileSection.unit := by
    intro hmem
    rcases List.mem_map.mp hmem with ⟨u, _, habs⟩
    exact absurd habs (by simp)
  refine ⟨rfl, ?_, ?_, hnotmem, ?_⟩
  · rcases (compactPlan_ok_iff env pdfDoc p).mp hp with ⟨catRef, hcat, rfl⟩
    show (streamUnits pdfDoc.index ++
        [(compactPlanOf env pdfDoc catRef).objectStreamIndObj]).getLast? = _
    rw [List.getLast?_concat]
  · have hzero : (p.streamObjects.map FileSection.unit).count FileSection.xref = 0 :=
      List.count_eq_zero.mpr hnotmem
    simp [compactSections, List.count_cons, List.count_append, hzero]
  · simp [saveToBytesWithObjectStreams, hp, Except.map]

/-- Witness for C7 on the concrete scenario document. -/
theorem c7_compact_order_witness :
    compactSections (compactPlanOf env0 doc3 ⟨1, 0⟩)
        = FileSection.header
            :: (compactPlanOf env0 doc3 ⟨1, 0⟩).streamObjects.map FileSection.unit
            ++ [FileSection.xref, FileSection.pointer] ∧
      (compactPlanOf env0 doc3 ⟨1, 0⟩).streamObjects.getLast?
        = some (compactPlanOf env0 doc3 ⟨1, 0⟩).objectStreamIndObj ∧
      (compactSections (compactPlanOf env0 doc3 ⟨1, 0⟩)).count FileSection.xref = 1 ∧
      FileSection.xref
        ∉ (compactPlanOf env0 doc3 ⟨1, 0⟩).streamObjects.map FileSection.unit ∧
      saveToBytesWithObjectStreams env0 doc3
        = .ok (assemble ((compactPlanOf env0 doc3 ⟨1, 0⟩).offset
              + (compactPlanOf env0 doc3 ⟨1, 0⟩).xrefStream.length
              + (compactPlanOf env0 doc3 ⟨1, 0⟩).trailer.length)
            ((compactSections (compactPlanOf env0 doc3 ⟨1, 0⟩)).map
              (sectionBytes env0 (compactPlanOf env0 doc3 ⟨1, 0⟩)))).1 :=
  c7_compact_order env0 doc3 (compactPlanOf env0 doc3 ⟨1, 0⟩)
    ((compactPlan_ok_iff env0 doc3 _).mpr ⟨⟨1, 0⟩, by decide, rfl⟩)

theorem assemble_exact (sections : List (List Nat)) (bufferSize : Nat)
    (h : (sections.map List.length).sum = bufferSize) :
    (assemble bufferSize sections).1 = sections.flatten ∧
      (assemble bufferSize sections).2 = bufferSize ∧
      sections.flatten.length = bufferSize := by
  rw [assemble_eq bufferSize sections h]
  exact ⟨rfl, rfl, by rw [List.length_flatten, h]⟩

theorem classicSections_sum (env : Env) (pdfDoc : PDFDocument)
    (catUnit : PDFIndirectObject) :
    ((classicSectionsBytes env (classicPlanOf env pdfDoc catUnit)).map List.length).sum
      = (classicPlanOf env pdfDoc catUnit).tableOffset
        + (classicPlanOf env pdfDoc catUnit).table.length
        + (env.trailerBytes (classicPlanOf env pdfDoc catUnit).trailer).length := by
  simp only [classicSectionsBytes, classicPlanOf,
    PDFXRefTableFactory.forIndirectObjects, List.map_cons, List.map_append,
    List.sum_cons, List.sum_append, List.map_map, Function.comp_def]
  simp
  omega

theorem compactSections_sum (env : Env) (pdfDoc : PDFDocument)
    (catRef : PDFIndirectReference) :
    (((compactSections (compactPlanOf env pdfDoc catRef)).map
        (sectionBytes env (compactPlanOf env pdfDoc catRef))).map List.length).sum
      = (compactPlanOf env pdfDoc catRef).offset
        + (compactPlanOf env pdfDoc catRef).xrefStream.length
        + (compactPlanOf env pdfDoc catRef).trailer.length := by
  simp only [compactSections, compactPlanOf, sectionBytes,
    PDFXRefStreamFactory.forIndirectObjects, List.map_cons, List.map_append,
    List.sum_cons, List.sum_append, List.map_map, Function.comp_def]
  simp
  omega

/-- C4: on every successful invocation of either entry point, the returned
buffer is the exact back-to-back concatenation of the sections written
(header, each body unit, cross-reference table/stream, trailer), its length is
the sum of every section's reported byte size, that sum is exactly the
allocated buffer size, and the write cursor ends exactly at the end of the
buffer.  Each collaborator's reported `bytesSize` is by the model's contract
the length of the bytes its `copyBytesInto` writes. -/
theorem c4_exact_sizing (env : Env) (pdfDoc : PDFDocument) :
    (∀ p, classicPlan env pdfDoc = .ok p →
        saveToBytes env pdfDoc = .ok (classicSectionsBytes env p).flatten ∧
        ((classicSectionsBytes env p).map List.length).sum
          = p.tableOffset + p.table.length + (env.trailerBytes p.trailer).length ∧
        ((classicSectionsBytes env p).flatten).length
          = p.tableOffset + p.table.length + (env.trailerBytes p.trailer).length ∧
        (assemble (p.tableOffset + p.table.length + (env.trailerBytes p.trailer).length)
            (classicSectionsBytes env p)).2
          = p.tableOffset + p.table.length + (env.trailerBytes p.trailer).length) ∧
    (∀ p, compactPlan env pdfDoc = .ok p →
        saveToBytesWithObjectStreams env pdfDoc
          = .ok ((compactSections p).map (sectionBytes env p)).flatten ∧
        (((compactSections p).map (sectionBytes env p)).map List.length).sum
          = p.offset + p.xrefStream.length + p.trailer.length ∧
        (((compactSections p).map (sectionBytes env p)).flatten).length
          = p.offset + p.xrefStream.length + p.trailer.length ∧
        (assemble (p.offset + p.xrefStream.length + p.trailer.length)
            ((compactSections p).map (sectionBytes env p))).2
          = p.offset + p.xrefStream.length + p.trailer.length) := by
  constructor
  · intro p hp
    obtain ⟨catUnit, hfind, hpeq⟩ := (classicPlan_ok_iff env pdfDoc p).mp hp
    subst hpeq
    have hsum := classicSections_sum env pdfDoc catUnit
    obtain ⟨he1, he2, he3⟩ := assemble_exact _ _ hsum
    refine ⟨?_, hsum, he3, he2⟩
    simp only [saveToBytes, hp, Except.map]
    rw [he1]
  · intro p hp
    obtain ⟨catRef, hcat, hpeq⟩ := (compactPlan_ok_iff env pdfDoc p).mp hp
    subst hpeq
    have hsum := compactSections_sum env pdfDoc catRef
    obtain ⟨he1, he2, he3⟩ := assemble_exact _ _ hsum
    refine ⟨?_, hsum, he3, he2⟩
    simp only [saveToBytesWithObjectStreams, hp, Except.map]
    rw [he1]

/-- Witness for C4 on the concrete scenario document, classic and compact. -/
theorem c4_exact_sizing_witness :
    saveToBytes env0 doc3
        = .ok (classicSectionsBytes env0
            (classicPlanOf env0 doc3 ⟨⟨1, 0⟩, PDFObject.catalog 0⟩)).flatten ∧
      saveToBytesWithObjectStreams env0 doc3
        = .ok ((compactSections (compactPlanOf env0 doc3 ⟨1, 0⟩)).map
            (sectionBytes env0 (compactPlanOf env0 doc3 ⟨1, 0⟩))).flatten :=
  ⟨((c4_exact_sizing env0 doc3).1 (classicPlanOf env0 doc3 ⟨⟨1, 0⟩, PDFObject.catalog 0⟩)
      ((classicPlan_ok_iff env0 doc3 _).mpr
        ⟨⟨⟨1, 0⟩, PDFObject.catalog 0⟩, by decide, rfl⟩)).1,
   ((c4_exact_sizing env0 doc3).2 (compactPlanOf env0 doc3 ⟨1, 0⟩)
      ((compactPlan_ok_iff env0 doc3 _).mpr ⟨⟨1, 0⟩, by decide, rfl⟩)).1⟩

/-- C8: both entry points are deterministic: the writer is a pure transform of
the document (and the fixed collaborator encoders), so two invocations of the
same entry point on the same unchanged document return byte-for-byte
identical results. -/
theorem c8_deterministic (env : Env) (pdfDoc : PDFDocument)
    (b1 b2 b3 b4 : Except String (List Nat))
    (h1 : saveToBytes env pdfDoc = b1) (h2 : saveToBytes env pdfDoc = b2)
    (h3 : saveToBytesWithObjectStreams env pdfDoc = b3)
    (h4 : saveToBytesWithObjectStreams env pdfDoc = b4) :
    b1 = b2 ∧ b3 = b4 :=
  ⟨h1.symm.trans h2, h3.symm.trans h4⟩

/-- Witness for C8 on the concrete scenario document. -/
theorem c8_deterministic_witness :
    saveToBytes env0 doc3 = saveToBytes env0 doc3 ∧
      saveToBytesWithObjectStreams env0 doc3 = saveToBytesWithObjectStreams env0 doc3 :=
  c8_deterministic env0 doc3 (saveToBytes env0 doc3) (saveToBytes env0 doc3)
    (saveToBytesWithObjectStreams env0 doc3) (saveToBytesWithObjectStreams env0 doc3)
    rfl rfl rfl rfl

theorem saveToBytesTracked_spec (env : Env) (pdfDoc : PDFDocument) :
    (saveToBytesTracked env pdfDoc).2 = pdfDoc ∧
      (saveToBytesTracked env pdfDoc).1 = saveToBytes env pdfDoc := by
  unfold saveToBytesTracked saveToBytes classicPlan classicSectionsBytes readIndex
  cases hfind : (sortIndex pdfDoc.index).find? (fun u => u.pdfObject.isCatalog) with
  | none => simp [hfind, Except.map]
  | some catUnit => simp [hfind, Except.map]

theorem saveToBytesWithObjectStreamsTracked_spec (env : Env) (pdfDoc : PDFDocument) :
    (saveToBytesWithObjectStreamsTracked env pdfDoc).2 = pdfDoc ∧
      (saveToBytesWithObjectStreamsTracked env pdfDoc).1
        = saveToBytesWithObjectStreams env pdfDoc := by
  unfold saveToBytesWithObjectStreamsTracked saveToBytesWithObjectStreams compactPlan
    compactSections sectionBytes readIndex readMaxObjNum
  cases hpart : (partitionIndex pdfDoc.index).2.2 with
  | none => simp [hpart, Except.map]
  | some catRef => simp [hpart, Except.map, List.map_map, Function.comp_def]

/-- C9: neither entry point mutates the document's object index.  With the
document state threaded through every access the source makes to it, both
paths return the document unchanged — on success and on failure — while
computing the same results as the entry points; and under the index invariant
on `maxObjNum`, the compact path's synthesized object stream reference is not
an entry of the (unchanged) index. -/
theorem c9_index_not_mutated (env : Env) (pdfDoc : PDFDocument) (hwf : pdfDoc.wf) :
    (saveToBytesTracked env pdfDoc).2 = pdfDoc ∧
      (saveToBytesWithObjectStreamsTracked env pdfDoc).2 = pdfDoc ∧
      (saveToBytesTracked env pdfDoc).1 = saveToBytes env pdfDoc ∧
      (saveToBytesWithObjectStreamsTracked env pdfDoc).1
        = saveToBytesWithObjectStreams env pdfDoc ∧
      (⟨pdfDoc.maxObjNum + 1, 0⟩ : PDFIndirectReference)
        ∉ (saveToBytesWithObjectStreamsTracked env pdfDoc).2.index.map Prod.fst := by
  obtain ⟨h1, h2⟩ := saveToBytesTracked_spec env pdfDoc
  obtain ⟨h3, h4⟩ := saveToBytesWithObjectStreamsTracked_spec env pdfDoc
  refine ⟨h1, h3, h2, h4, ?_⟩
  rw [h3]
  intro hmem
  rcases List.mem_map.mp hmem with ⟨e, he, heq⟩
  have hb := hwf e he
  have hn : e.1.objectNumber = pdfDoc.maxObjNum + 1 := by rw [heq]
  omega

/-- Witness for C9 on the concrete scenario document. -/
theorem c9_index_not_mutated_witness :
    (saveToBytesTracked env0 doc3).2 = doc3 ∧
      (saveToBytesWithObjectStreamsTracked env0 doc3).2 = doc3 ∧
      (saveToBytesTracked env0 doc3).1 = saveToBytes env0 doc3 ∧
      (saveToBytesWithObjectStreamsTracked env0 doc3).1
        = saveToBytesWithObjectStreams env0 doc3 ∧
      (⟨doc3.maxObjNum + 1, 0⟩ : PDFIndirectReference)
        ∉ (saveToBytesWithObjectStreamsTracked env0 doc3).2.index.map Prod.fst :=
  c9_index_not_mutated env0 doc3
    (by show ∀ e ∈ doc3.index, e.1.objectNumber ≤ doc3.maxObjNum; decide)

/-- Witness for C6 on the concrete scenario document. -/
theorem c6_partition_witness :
    (compactPlanOf env0 doc3 ⟨1, 0⟩).streamObjects.length
        = (doc3.index.filter (fun e => e.2.isStream)).length + 1 ∧
      (compactPlanOf env0 doc3 ⟨1, 0⟩).streamObjectsPre.length
          + (compactPlanOf env0 doc3 ⟨1, 0⟩).nonStreamObjects.length
        = doc3.index.length :=
  (c6_partition env0 doc3).2.2.2.2 (compactPlanOf env0 doc3 ⟨1, 0⟩)
    ((compactPlan_ok_iff env0 doc3 _).mpr ⟨⟨1, 0⟩, by decide, rfl⟩)
